import Mathlib

/-!
# Ray_tracer: a shallow embedding of `Ray-tracing.cpp`

The program works on C++ `double`s.  The embedding takes the scalars in an
arbitrary linearly ordered field `K` (so every definition below is an ordinary
computable function, which can be run on `ℚ`), and the `sqrt` of `<cmath>` is
passed to the functions that call it.  The theorems that depend on what `sqrt`
computes are stated over `ℝ` with `Real.sqrt`.

Where a statement depends on the rounding of the `double`s, the functions it
needs are embedded a second time, in the namespace `Dbl`, with every operation
rounded as IEEE 754 binary64 rounds it; these are evaluated at concrete
inputs.

A C++ reference parameter that the function writes (`double &t`) is returned
next to the result; a `void` mutating member (`cap`) returns the new object.
-/

namespace RayTracer

/-! ## Vec -/

/-- The class `Vec`: three scalar components. -/
structure Vec (K : Type) where
  x : K
  y : K
  z : K
deriving DecidableEq

namespace Vec

variable {K : Type} [LinearOrderedField K]

/-- Source `Vec::operator+`: the component-wise sum. -/
def add (a v : Vec K) : Vec K :=
  ⟨a.x + v.x, a.y + v.y, a.z + v.z⟩

/-- Source `Vec::operator-`: the component-wise difference. -/
def sub (a v : Vec K) : Vec K :=
  ⟨a.x - v.x, a.y - v.y, a.z - v.z⟩

/-- Source `Vec::operator*`: every component times the scalar. -/
def mul (a : Vec K) (scalar : K) : Vec K :=
  ⟨a.x * scalar, a.y * scalar, a.z * scalar⟩

/-- Source `Vec::operator/`: every component divided by the scalar. -/
def div (a : Vec K) (scalar : K) : Vec K :=
  ⟨a.x / scalar, a.y / scalar, a.z / scalar⟩

/-- Source `Vec::magnitude2`: the sum of the squares of the components. -/
def magnitude2 (a : Vec K) : K :=
  a.x * a.x + a.y * a.y + a.z * a.z

/-- Source `Vec::magnitude`: `sqrt(magnitude2())`. -/
def magnitude (sqrt : K → K) (a : Vec K) : K :=
  sqrt a.magnitude2

/-- Source `Vec::normalize`: every component divided by the magnitude. -/
def normalize (sqrt : K → K) (a : Vec K) : Vec K :=
  let mg := a.magnitude sqrt
  ⟨a.x / mg, a.y / mg, a.z / mg⟩

/-- Source `Vec::dot`, the member function. -/
def dot (a v : Vec K) : K :=
  a.x * v.x + a.y * v.y + a.z * v.z

end Vec

section Core

variable {K : Type} [LinearOrderedField K]

/-- The free function `dot(a, b)`, which calls the member `a.dot(b)`. -/
def dot (a b : Vec K) : K :=
  a.dot b

/-- The `std::min(a, b)` of `<algorithm>`: `(b < a) ? b : a`. -/
def stdMin (a b : K) : K :=
  if b < a then b else a

end Core

/-! ## Ray and Sphere -/

/-- The class `Ray`: origin `o` and direction `d`. -/
structure Ray (K : Type) where
  o : Vec K
  d : Vec K
deriving DecidableEq

/-- The class `Sphere`: centre `c` and radius `r`. -/
structure Sphere (K : Type) where
  c : Vec K
  r : K
deriving DecidableEq

namespace Sphere

variable {K : Type} [LinearOrderedField K]

/-- Source `Sphere::getNormal`: `(pi - c) / r`. -/
def getNormal (s : Sphere K) (pi : Vec K) : Vec K :=
  (pi.sub s.c).div s.r

/-- Source `Sphere::intersect3`.  The argument `t` is the value of the reference
parameter on entry; the result is the returned `bool` and the value of `t`
on exit. -/
def intersect3 (sqrt : K → K) (s : Sphere K) (ray : Ray K) (t : K) : Bool × K :=
  let oc := ray.o.sub s.c
  let b := 2 * dot oc ray.d
  let c := dot oc oc - s.r * s.r
  let discriminant := b * b - 4 * c
  if discriminant < 0 then
    (false, t)
  else
    let sqrt_discriminant := sqrt discriminant
    let t0 := -b - sqrt_discriminant
    let t1 := -b + sqrt_discriminant
    (true, stdMin t0 t1)

end Sphere

/-! ## Color -/

/-- The class `Color`: three channels stored as scalars. -/
structure Color (K : Type) where
  r : K
  g : K
  b : K
deriving DecidableEq

namespace Color

variable {K : Type} [LinearOrderedField K]

/-- Source `Color::operator*`: every channel times the scalar. -/
def mul (a : Color K) (d : K) : Color K :=
  ⟨a.r * d, a.g * d, a.b * d⟩

/-- Source `Color::operator+`: per channel, `(r + c.r) / 2`. -/
def add (a c : Color K) : Color K :=
  ⟨(a.r + c.r) / 2, (a.g + c.g) / 2, (a.b + c.b) / 2⟩

/-- Source `Color::clamp__`: the value of the reference argument on exit. -/
def clamp__ (a : K) : K :=
  if a < 0 then 0 else if a > 255 then 255 else a

/-- Source `Color::cap`: the colour after the call. -/
def cap (a : Color K) : Color K :=
  ⟨clamp__ a.r, clamp__ a.g, clamp__ a.b⟩

/-- Constant `Color::BLACK = { 0x00, 0x00, 0x00 }`. -/
def BLACK : Color K := ⟨0, 0, 0⟩

/-- Constant `Color::WHITE = { 0xff, 0xff, 0xff }`. -/
def WHITE : Color K := ⟨255, 255, 255⟩

/-- Constant `Color::RED = { 0xff, 0x00, 0x00 }`. -/
def RED : Color K := ⟨255, 0, 0⟩

end Color

/-! ## The driver -/

/-- Constant `WIDTH`. -/
def WIDTH : Nat := 640

/-- Constant `HEIGHT`. -/
def HEIGHT : Nat := 480

section Driver

variable {K : Type} [LinearOrderedField K]

/-- The `sphere` of `main`: `Sphere(Vec(WIDTH / 2, HEIGHT / 2, 50), 150)`,
the two divisions being divisions of `unsigned`. -/
def sphere : Sphere K :=
  ⟨⟨((WIDTH / 2 : Nat) : K), ((HEIGHT / 2 : Nat) : K), 50⟩, 150⟩

/-- The `light` of `main`: `Sphere(Vec(0, 0, 0), 1)`. -/
def light : Sphere K :=
  ⟨⟨0, 0, 0⟩, 1⟩

/-- The body of the two loops of `main` for the pixel `(x, y)`: the value of
`pixel` that is written to the stream.  The loop counters are `int`s that
only take the values `0 .. WIDTH - 1` and `0 .. HEIGHT - 1`. -/
def pixelAt (sqrt : K → K) (x y : Nat) : Color K :=
  let white : Color K := Color.WHITE
  let red : Color K := Color.RED
  let ray : Ray K := ⟨⟨(x : K), (y : K), 0⟩, ⟨0, 0, 1⟩⟩
  let t : K := 0
  let pixel : Color K := Color.BLACK
  match sphere.intersect3 sqrt ray t with
  | (true, t) =>
    let pi := ray.o.add (ray.d.mul t)
    let L := light.c.sub pi
    let N := sphere.getNormal pi
    let dt := dot (L.normalize sqrt) (N.normalize sqrt)
    let pixel := red.add ((white.mul dt).mul 1.0)
    pixel.cap
  | (false, _) => pixel

/-- The conversion `int(a)` of a `double` to `int`: truncation towards
zero. -/
def toInt [FloorRing K] (a : K) : Int :=
  if 0 ≤ a then Int.floor a else Int.ceil a

/-- Constant `Color::OS_DELIMITER`. -/
def OS_DELIMITER : Char := '\n'

/-- Source `operator<<(std::ostream&, const Color&)`: the text of the stream
`os` after `int(c.r)`, `int(c.g)` and `int(c.b)`, each followed by the
delimiter, have been written to it. -/
def writeColor [FloorRing K] (os : String) (c : Color K) : String :=
  (((((os ++ toString (toInt c.r)).push OS_DELIMITER)
    ++ toString (toInt c.g)).push OS_DELIMITER)
    ++ toString (toInt c.b)).push OS_DELIMITER

/-- The two nested loops of `main`, rows `y` outside and columns `x` inside;
the statement `out << pixel` is the argument `emit`, acting on the stream
state `out`. -/
def renderLoop {σ : Type} (sqrt : K → K) (emit : σ → Color K → σ) (out : σ) : σ :=
  (List.range HEIGHT).foldl
    (fun out y => (List.range WIDTH).foldl (fun out x => emit out (pixelAt sqrt x y)) out)
    out

/-- Source `main`: the text written to the stream `out`, the header first and
then the loops writing every pixel with `operator<<`. -/
def main [FloorRing K] (sqrt : K → K) : String :=
  let out : String := ""
  let out := ((((out ++ "P3\n") ++ toString WIDTH).push '\n' ++ toString HEIGHT).push '\n')
    ++ "255\n"
  renderLoop sqrt writeColor out

end Driver

/-! ## The same functions in `double` arithmetic

A finite `double` is the rational number it stands for.  Every arithmetic
operation of the source gives the exact result rounded to the nearest `double`
(IEEE 754 binary64, ties to even), each operation rounded on its own.  The
model has no infinity and no NaN: it is the arithmetic of the program as long
as no result reaches `2^1024`, no divisor is zero and no `sqrt` argument is
negative.  Comparisons and negation are exact. -/

namespace Dbl

/-- The number of binary digits of `n`, by repeated halving (`fuel` bounds
the number of steps). -/
def bitLengthAux : Nat → Nat → Nat
  | 0, _ => 0
  | fuel + 1, n => if n = 0 then 0 else bitLengthAux fuel (n / 2) + 1

/-- The number of binary digits of `n`: `0` for `0`, otherwise the `k` with
`2^(k-1) ≤ n < 2^k`. -/
def bitLength (n : Nat) : Nat :=
  bitLengthAux n n

/-- The binary exponent of the positive rational `a / b`: the `e` with
`2^e ≤ a / b < 2^(e+1)`. -/
def floorLog2 (a b : Nat) : Int :=
  let e : Int := (bitLength a : Int) - (bitLength b : Int)
  if (2 : ℚ) ^ e ≤ (a : ℚ) / (b : ℚ) then e else e - 1

/-- Rounding of an exact result to the nearest `double`, ties to the even
significand: 53 significant bits, and the spacing `2^(-1074)` of the
subnormal numbers below `2^(-1022)`. -/
def round (q : ℚ) : ℚ :=
  if q = 0 then 0 else
    let e : Int := max (floorLog2 q.num.natAbs q.den - 52) (-1074)
    let m : ℚ := |q| / 2 ^ e
    let n : Int := Int.floor m
    let f : ℚ := m - n
    let n' : Int :=
      if f < 1 / 2 then n else if 1 / 2 < f then n + 1 else if n % 2 = 0 then n else n + 1
    (if q < 0 then -1 else 1) * n' * 2 ^ e

/-- The sum of two `double`s: the exact sum, rounded. -/
def add (x y : ℚ) : ℚ := round (x + y)

/-- The difference of two `double`s: the exact difference, rounded. -/
def sub (x y : ℚ) : ℚ := round (x - y)

/-- The product of two `double`s: the exact product, rounded. -/
def mul (x y : ℚ) : ℚ := round (x * y)

/-- The quotient of two `double`s: the exact quotient, rounded. -/
def div (x y : ℚ) : ℚ := round (x / y)

/-- The integer square root, found bit by bit from the bit `2^(i-1)` down. -/
def isqrtAux (n : Nat) : Nat → Nat → Nat
  | 0, r => r
  | i + 1, r => if (r + 2 ^ i) * (r + 2 ^ i) ≤ n then isqrtAux n i (r + 2 ^ i) else isqrtAux n i r

/-- The integer square root: the `y` with `y² ≤ n < (y + 1)²`. -/
def isqrt (n : Nat) : Nat :=
  isqrtAux n (bitLength n) 0

/-- The `sqrt` of `<cmath>` on a `double`: the exact square root, rounded.
The argument is scaled by `4^k` to at least `2^126`, so that its integer
square root `y` has more than 54 bits; the exact root is `y / 2^k` when
`y² = x·4^k`, and otherwise lies strictly between `y / 2^k` and
`(y + 1) / 2^k`, where every number rounds as the midpoint does. -/
def sqrt (x : ℚ) : ℚ :=
  if x ≤ 0 then 0 else
    let k : Nat := Int.toNat ((127 - floorLog2 x.num.natAbs x.den) / 2)
    let s : ℚ := x * 4 ^ k
    let y : Nat := isqrt (Int.toNat (Int.floor s))
    if ((y : ℚ) * (y : ℚ) = s) then round ((y : ℚ) / 2 ^ k)
    else round ((2 * (y : ℚ) + 1) / 2 ^ (k + 1))

end Dbl

namespace Dbl

/-- Source `Vec::operator+`, in `double` arithmetic. -/
def Vec.add (a v : Vec ℚ) : Vec ℚ :=
  ⟨Dbl.add a.x v.x, Dbl.add a.y v.y, Dbl.add a.z v.z⟩

/-- Source `Vec::operator-`, in `double` arithmetic. -/
def Vec.sub (a v : Vec ℚ) : Vec ℚ :=
  ⟨Dbl.sub a.x v.x, Dbl.sub a.y v.y, Dbl.sub a.z v.z⟩

/-- Source `Vec::operator*`, in `double` arithmetic. -/
def Vec.mul (a : Vec ℚ) (scalar : ℚ) : Vec ℚ :=
  ⟨Dbl.mul a.x scalar, Dbl.mul a.y scalar, Dbl.mul a.z scalar⟩

/-- Source `Vec::operator/`, in `double` arithmetic. -/
def Vec.div (a : Vec ℚ) (scalar : ℚ) : Vec ℚ :=
  ⟨Dbl.div a.x scalar, Dbl.div a.y scalar, Dbl.div a.z scalar⟩

/-- Source `Vec::magnitude2`, in `double` arithmetic: the three products are
added from left to right. -/
def Vec.magnitude2 (a : Vec ℚ) : ℚ :=
  Dbl.add (Dbl.add (Dbl.mul a.x a.x) (Dbl.mul a.y a.y)) (Dbl.mul a.z a.z)

/-- Source `Vec::magnitude`, in `double` arithmetic. -/
def Vec.magnitude (a : Vec ℚ) : ℚ :=
  Dbl.sqrt (Dbl.Vec.magnitude2 a)

/-- Source `Vec::normalize`, in `double` arithmetic. -/
def Vec.normalize (a : Vec ℚ) : Vec ℚ :=
  let mg := Dbl.Vec.magnitude a
  ⟨Dbl.div a.x mg, Dbl.div a.y mg, Dbl.div a.z mg⟩

/-- Source `Vec::dot`, in `double` arithmetic: the three products are added
from left to right. -/
def Vec.dot (a v : Vec ℚ) : ℚ :=
  Dbl.add (Dbl.add (Dbl.mul a.x v.x) (Dbl.mul a.y v.y)) (Dbl.mul a.z v.z)

/-- The free function `dot(a, b)`, in `double` arithmetic. -/
def dot (a b : Vec ℚ) : ℚ :=
  Dbl.Vec.dot a b

/-- Source `Sphere::getNormal`, in `double` arithmetic. -/
def Sphere.getNormal (s : Sphere ℚ) (pi : Vec ℚ) : Vec ℚ :=
  Dbl.Vec.div (Dbl.Vec.sub pi s.c) s.r

/-- Source `Sphere::intersect3`, in `double` arithmetic. -/
def Sphere.intersect3 (s : Sphere ℚ) (ray : Ray ℚ) (t : ℚ) : Bool × ℚ :=
  let oc := Dbl.Vec.sub ray.o s.c
  let b := Dbl.mul 2 (Dbl.dot oc ray.d)
  let c := Dbl.sub (Dbl.dot oc oc) (Dbl.mul s.r s.r)
  let discriminant := Dbl.sub (Dbl.mul b b) (Dbl.mul 4 c)
  if discriminant < 0 then
    (false, t)
  else
    let sqrt_discriminant := Dbl.sqrt discriminant
    let t0 := Dbl.sub (-b) sqrt_discriminant
    let t1 := Dbl.add (-b) sqrt_discriminant
    (true, stdMin t0 t1)

/-- Source `Color::operator*`, in `double` arithmetic. -/
def Color.mul (a : Color ℚ) (d : ℚ) : Color ℚ :=
  ⟨Dbl.mul a.r d, Dbl.mul a.g d, Dbl.mul a.b d⟩

/-- Source `Color::operator+`, in `double` arithmetic. -/
def Color.add (a c : Color ℚ) : Color ℚ :=
  ⟨Dbl.div (Dbl.add a.r c.r) 2, Dbl.div (Dbl.add a.g c.g) 2, Dbl.div (Dbl.add a.b c.b) 2⟩

/-- The statement `pixel = red + (white * dt) * 1.0` of `main`, in `double`
arithmetic: the value of `pixel` before `cap`. -/
def shade (dt : ℚ) : Color ℚ :=
  Dbl.Color.add Color.RED (Dbl.Color.mul (Dbl.Color.mul Color.WHITE dt) 1.0)

end Dbl

/-! ## Auxiliary lemmas -/

section Lemmas

variable {K : Type} [LinearOrderedField K]

theorem stdMin_eq_min (a b : K) : stdMin a b = min a b := by
  unfold stdMin
  split_ifs with h
  · exact (min_eq_right h.le).symm
  · exact (min_eq_left (not_lt.mp h)).symm

theorem clamp_eq_max_min (a : K) : Color.clamp__ a = max 0 (min 255 a) := by
  unfold Color.clamp__
  split_ifs with h1 h2
  · rw [min_eq_right (by linarith), max_eq_left h1.le]
  · rw [min_eq_left h2.le, max_eq_right (by norm_num)]
  · rw [min_eq_right (not_lt.mp h2), max_eq_right (not_lt.mp h1)]

theorem clamp_mem (a : K) : 0 ≤ Color.clamp__ a ∧ Color.clamp__ a ≤ 255 := by
  unfold Color.clamp__
  split_ifs with h1 h2
  · exact ⟨le_refl _, by norm_num⟩
  · exact ⟨by norm_num, le_refl _⟩
  · exact ⟨not_lt.mp h1, not_lt.mp h2⟩

theorem clamp_of_mem (a : K) (h0 : 0 ≤ a) (h1 : a ≤ 255) : Color.clamp__ a = a := by
  unfold Color.clamp__
  rw [if_neg (not_lt.mpr h0), if_neg (not_lt.mpr h1)]

theorem clamp_cases (a : K) :
    (a < 0 → Color.clamp__ a = 0) ∧ (255 < a → Color.clamp__ a = 255) ∧
    (0 ≤ a → a ≤ 255 → Color.clamp__ a = a) := by
  refine ⟨fun h => ?_, fun h => ?_, clamp_of_mem a⟩
  · unfold Color.clamp__
    rw [if_pos h]
  · unfold Color.clamp__
    rw [if_neg (by linarith), if_pos h]

theorem intersect3_eq (sqrt : K → K) (s : Sphere K) (ray : Ray K) (t : K) :
    let b := 2 * dot (ray.o.sub s.c) ray.d
    let disc := b ^ 2 - 4 * (dot (ray.o.sub s.c) (ray.o.sub s.c) - s.r ^ 2)
    s.intersect3 sqrt ray t =
      if disc < 0 then (false, t) else (true, min (-b - sqrt disc) (-b + sqrt disc)) := by
  intro b disc
  have hd : 2 * dot (ray.o.sub s.c) ray.d * (2 * dot (ray.o.sub s.c) ray.d)
      - 4 * (dot (ray.o.sub s.c) (ray.o.sub s.c) - s.r * s.r) = disc := by
    simp only [disc, b]; ring
  unfold Sphere.intersect3
  simp only [hd, stdMin_eq_min]

theorem magnitude2_nonneg (v : Vec K) : 0 ≤ v.magnitude2 := by
  unfold Vec.magnitude2
  nlinarith [mul_self_nonneg v.x, mul_self_nonneg v.y, mul_self_nonneg v.z]

theorem magnitude2_pos (v : Vec K) (hv : v ≠ ⟨0, 0, 0⟩) : 0 < v.magnitude2 := by
  rcases lt_or_eq_of_le (magnitude2_nonneg v) with h | h
  · exact h
  · exfalso
    apply hv
    unfold Vec.magnitude2 at h
    have hx : v.x = 0 := by
      nlinarith [mul_self_nonneg v.x, mul_self_nonneg v.y, mul_self_nonneg v.z]
    have hy : v.y = 0 := by
      nlinarith [mul_self_nonneg v.x, mul_self_nonneg v.y, mul_self_nonneg v.z]
    have hz : v.z = 0 := by
      nlinarith [mul_self_nonneg v.x, mul_self_nonneg v.y, mul_self_nonneg v.z]
    cases v
    simp only [Vec.mk.injEq]
    exact ⟨hx, hy, hz⟩

/-- The squared distance from the centre `c` of the point `o + d·u` of a ray,
as a quadratic in `u`. -/
theorem point_magnitude2 (o d c : Vec K) (u : K) :
    ((o.add (d.mul u)).sub c).magnitude2 =
      d.magnitude2 * u ^ 2 + 2 * dot (o.sub c) d * u + dot (o.sub c) (o.sub c) := by
  simp only [Vec.magnitude2, Vec.add, Vec.sub, Vec.mul, dot, Vec.dot]
  ring

theorem magnitude2_div (v : Vec K) (m : K) :
    (v.div m).magnitude2 = v.magnitude2 / m ^ 2 := by
  simp only [Vec.magnitude2, Vec.div]
  rw [div_mul_div_comm, div_mul_div_comm, div_mul_div_comm, ← add_div, ← add_div, pow_two]

end Lemmas

section RealLemmas

theorem magnitude2_of_magnitude_eq (v : Vec ℝ) (r : ℝ)
    (h : v.magnitude Real.sqrt = r) : v.magnitude2 = r ^ 2 := by
  unfold Vec.magnitude at h
  rw [← h, Real.sq_sqrt (magnitude2_nonneg v)]

theorem magnitude_of_magnitude2_eq (v : Vec ℝ) (r : ℝ) (hr : 0 ≤ r)
    (h : v.magnitude2 = r ^ 2) : v.magnitude Real.sqrt = r := by
  unfold Vec.magnitude
  rw [h, Real.sqrt_sq hr]

theorem real_min_roots (b disc : ℝ) :
    min (-b - Real.sqrt disc) (-b + Real.sqrt disc) = -b - Real.sqrt disc := by
  apply min_eq_left
  linarith [Real.sqrt_nonneg disc]

theorem sqrt_four : Real.sqrt 4 = 2 := by
  rw [show (4 : ℝ) = 2 ^ 2 by norm_num, Real.sqrt_sq (by norm_num)]

theorem sqrt_hundred : Real.sqrt 100 = 10 := by
  rw [show (100 : ℝ) = 10 ^ 2 by norm_num, Real.sqrt_sq (by norm_num)]

/-- Over the reals, a hit of `intersect3` means a non-negative discriminant,
and the `t` it sets is the root `−b − √disc`. -/
theorem real_intersect3_hit (s : Sphere ℝ) (ray : Ray ℝ) (t : ℝ)
    (hhit : (s.intersect3 Real.sqrt ray t).1 = true) :
    let b := 2 * dot (ray.o.sub s.c) ray.d
    let disc := b ^ 2 - 4 * (dot (ray.o.sub s.c) (ray.o.sub s.c) - s.r ^ 2)
    0 ≤ disc ∧ (s.intersect3 Real.sqrt ray t).2 = -b - Real.sqrt disc := by
  intro b disc
  have h := intersect3_eq Real.sqrt s ray t
  simp only at h
  rw [h] at hhit ⊢
  by_cases hneg : disc < 0
  · rw [if_pos hneg] at hhit
    exact absurd hhit (by simp)
  · rw [if_neg hneg]
    exact ⟨not_lt.mp hneg, real_min_roots b disc⟩

theorem real_intersect3_of_nonneg (s : Sphere ℝ) (ray : Ray ℝ) (t : ℝ)
    (hdisc : 0 ≤ (2 * dot (ray.o.sub s.c) ray.d) ^ 2
      - 4 * (dot (ray.o.sub s.c) (ray.o.sub s.c) - s.r ^ 2)) :
    s.intersect3 Real.sqrt ray t =
      (true, -(2 * dot (ray.o.sub s.c) ray.d) - Real.sqrt ((2 * dot (ray.o.sub s.c) ray.d) ^ 2
        - 4 * (dot (ray.o.sub s.c) (ray.o.sub s.c) - s.r ^ 2))) := by
  have h := intersect3_eq Real.sqrt s ray t
  simp only at h
  rw [h, if_neg (not_lt.mpr hdisc), real_min_roots]

theorem unit_z_magnitude : (⟨0, 0, 1⟩ : Vec ℝ).magnitude Real.sqrt = 1 := by
  simp [Vec.magnitude, Vec.magnitude2]

/-- The sphere of centre `(0, 0, −10)` and radius `1`, behind the origin of
the ray from `(0, 0, 0)` along `(0, 0, 1)`: a hit with `t = −22`. -/
theorem intersect3_behind (t : ℝ) :
    (⟨⟨0, 0, -10⟩, 1⟩ : Sphere ℝ).intersect3 Real.sqrt ⟨⟨0, 0, 0⟩, ⟨0, 0, 1⟩⟩ t
      = (true, -22) := by
  rw [real_intersect3_of_nonneg _ _ _ (by norm_num [dot, Vec.dot, Vec.sub])]
  norm_num [dot, Vec.dot, Vec.sub, sqrt_four]

/-- The sphere of centre `(0, 0, 10)` and radius `1`, in front of the same
ray: a hit with `t = 18`. -/
theorem intersect3_front (t : ℝ) :
    (⟨⟨0, 0, 10⟩, 1⟩ : Sphere ℝ).intersect3 Real.sqrt ⟨⟨0, 0, 0⟩, ⟨0, 0, 1⟩⟩ t
      = (true, 18) := by
  rw [real_intersect3_of_nonneg _ _ _ (by norm_num [dot, Vec.dot, Vec.sub])]
  norm_num [dot, Vec.dot, Vec.sub, sqrt_four]

/-- The sphere of centre `(0, 0, 0)` and radius `−1` and the same ray: a hit
with `t = −2`. -/
theorem intersect3_negative_radius (t : ℝ) :
    (⟨⟨0, 0, 0⟩, -1⟩ : Sphere ℝ).intersect3 Real.sqrt ⟨⟨0, 0, 0⟩, ⟨0, 0, 1⟩⟩ t
      = (true, -2) := by
  rw [real_intersect3_of_nonneg _ _ _ (by norm_num [dot, Vec.dot, Vec.sub])]
  norm_num [dot, Vec.dot, Vec.sub, sqrt_four]

/-- Over the reals, the point `o + d·u` of a ray with a unit direction is
at distance `|u|` from the origin `o` of the ray. -/
theorem real_point_distance (o d : Vec ℝ) (u : ℝ) (hd2 : d.magnitude2 = 1) :
    ((o.add (d.mul u)).sub o).magnitude Real.sqrt = |u| := by
  unfold Vec.magnitude
  rw [point_magnitude2, hd2, ← Real.sqrt_sq_eq_abs]
  congr 1
  simp only [dot, Vec.dot, Vec.sub]
  ring

end RealLemmas

/-! ## Lemmas on the loops and the output text -/

section LoopLemmas

/-- Two nested loops over `y < H` and `x < W` run the body on the pairs
`(k % W, k / W)` for `k = 0, 1, ..., H * W - 1` in this order. -/
theorem nested_range_foldl {σ α : Type} (emit : σ → α → σ) (f : Nat → Nat → α)
    (W : Nat) (hW : 0 < W) (H : Nat) :
    ∀ out : σ,
      (List.range H).foldl
          (fun out y => (List.range W).foldl (fun out x => emit out (f x y)) out) out
        = ((List.range (H * W)).map fun k => f (k % W) (k / W)).foldl emit out := by
  induction H with
  | zero => intro out; simp
  | succ n ih =>
    intro out
    rw [List.range_succ, List.foldl_append, ih, Nat.succ_mul, List.range_add,
      List.map_append, List.foldl_append, List.map_map]
    simp only [List.foldl_cons, List.foldl_nil, List.foldl_map]
    apply List.foldl_ext
    intro o j hj
    have hj' : j < W := List.mem_range.mp hj
    simp only [Function.comp]
    rw [Nat.mul_add_mod_of_lt hj', Nat.add_comm (n * W) j, Nat.add_mul_div_right j n hW,
      Nat.div_eq_of_lt hj', Nat.zero_add]

theorem foldl_append_join {α : Type} (g : α → String) (emit : String → α → String)
    (hemit : ∀ os s, emit os s = os ++ g s) (l : List α) :
    ∀ out : String, l.foldl emit out = out ++ String.join (l.map g) := by
  induction l with
  | nil =>
    intro out
    apply String.ext
    simp [String.join]
  | cons a l ih =>
    intro out
    rw [List.foldl_cons, ih, hemit]
    apply String.ext
    simp [String.join_eq, String.data_append]

end LoopLemmas

section SceneLemmas

variable {K : Type} [LinearOrderedField K]

/-- The loops of `main` run `emit` on the pixels in row-major order. -/
theorem renderLoop_eq {σ : Type} (sqrt : K → K) (emit : σ → Color K → σ) (out : σ) :
    renderLoop sqrt emit out =
      ((List.range (HEIGHT * WIDTH)).map
        fun k => pixelAt sqrt (k % WIDTH) (k / WIDTH)).foldl emit out :=
  nested_range_foldl emit (fun x y => pixelAt sqrt x y) WIDTH (by decide) HEIGHT out

theorem writeColor_eq [FloorRing K] (os : String) (c : Color K) :
    writeColor os c =
      os ++ (toString (toInt c.r) ++ "\n" ++ toString (toInt c.g) ++ "\n"
        ++ toString (toInt c.b) ++ "\n") := by
  apply String.ext
  simp [writeColor, OS_DELIMITER, String.data_append, String.data_push]

/-- The call of `intersect3` on the ray of the pixel `(x, y)`: here
`b = −100` and the discriminant is `90000 − 4·((x − 320)² + (y − 240)²)`. -/
theorem scene_intersect3 (sqrt : K → K) (x y : Nat) (t : K) :
    let disc : K := 90000 - 4 * (((x : K) - 320) ^ 2 + ((y : K) - 240) ^ 2)
    sphere.intersect3 sqrt ⟨⟨(x : K), (y : K), 0⟩, ⟨0, 0, 1⟩⟩ t =
      if disc < 0 then (false, t) else (true, min (100 - sqrt disc) (100 + sqrt disc)) := by
  intro disc
  have h := intersect3_eq sqrt (sphere : Sphere K) ⟨⟨(x : K), (y : K), 0⟩, ⟨0, 0, 1⟩⟩ t
  have hw : ((WIDTH / 2 : Nat) : K) = 320 := by norm_num [WIDTH]
  have hh : ((HEIGHT / 2 : Nat) : K) = 240 := by norm_num [HEIGHT]
  have hb : 2 * dot ((⟨(x : K), (y : K), 0⟩ : Vec K).sub (sphere : Sphere K).c)
      (⟨0, 0, 1⟩ : Vec K) = -100 := by
    simp only [dot, Vec.dot, Vec.sub, sphere]
    ring
  have hd : (-100 : K) ^ 2 - 4 * (dot ((⟨(x : K), (y : K), 0⟩ : Vec K).sub (sphere : Sphere K).c)
      ((⟨(x : K), (y : K), 0⟩ : Vec K).sub (sphere : Sphere K).c) - (sphere : Sphere K).r ^ 2)
        = disc := by
    simp only [dot, Vec.dot, Vec.sub, sphere, hw, hh, disc]
    ring
  simp only [hb, hd] at h
  rw [h]
  norm_num

/-- The pixel of a ray that misses the sphere is `BLACK`. -/
theorem pixelAt_of_miss (sqrt : K → K) (x y : Nat)
    (h : (sphere.intersect3 sqrt ⟨⟨(x : K), (y : K), 0⟩, ⟨0, 0, 1⟩⟩ 0).1 = false) :
    pixelAt sqrt x y = ⟨0, 0, 0⟩ := by
  unfold pixelAt
  simp only
  rcases hres : sphere.intersect3 sqrt ⟨⟨(x : K), (y : K), 0⟩, ⟨0, 0, 1⟩⟩ 0 with ⟨b, t⟩
  rw [hres] at h
  cases b
  · rfl
  · exact absurd h (by simp)

/-- Every pixel is `BLACK` or a capped colour. -/
theorem pixelAt_black_or_cap (sqrt : K → K) (x y : Nat) :
    pixelAt sqrt x y = ⟨0, 0, 0⟩ ∨ ∃ c : Color K, pixelAt sqrt x y = c.cap := by
  unfold pixelAt
  simp only
  rcases sphere.intersect3 sqrt ⟨⟨(x : K), (y : K), 0⟩, ⟨0, 0, 1⟩⟩ 0 with ⟨b, t⟩
  cases b
  · exact Or.inl rfl
  · exact Or.inr ⟨_, rfl⟩

theorem toInt_mem [FloorRing K] (a : K) (h0 : 0 ≤ a) (h1 : a ≤ 255) :
    0 ≤ toInt a ∧ toInt a ≤ 255 := by
  unfold toInt
  rw [if_pos h0]
  refine ⟨Int.floor_nonneg.mpr h0, ?_⟩
  have h : ((Int.floor a : Int) : K) ≤ ((255 : Int) : K) := by
    push_cast
    exact le_trans (Int.floor_le a) h1
  exact Int.cast_le.mp h

/-- Every channel of every pixel is written as an integer of `[0, 255]`. -/
theorem pixelAt_channels [FloorRing K] (sqrt : K → K) (x y : Nat) :
    (0 ≤ toInt (pixelAt sqrt x y).r ∧ toInt (pixelAt sqrt x y).r ≤ 255) ∧
    (0 ≤ toInt (pixelAt sqrt x y).g ∧ toInt (pixelAt sqrt x y).g ≤ 255) ∧
    (0 ≤ toInt (pixelAt sqrt x y).b ∧ toInt (pixelAt sqrt x y).b ≤ 255) := by
  rcases pixelAt_black_or_cap sqrt x y with h | ⟨c, h⟩
  · rw [h]
    have hz := toInt_mem (0 : K) (le_refl 0) (by norm_num)
    exact ⟨hz, hz, hz⟩
  · rw [h]
    exact ⟨toInt_mem _ (clamp_mem c.r).1 (clamp_mem c.r).2,
      toInt_mem _ (clamp_mem c.g).1 (clamp_mem c.g).2,
      toInt_mem _ (clamp_mem c.b).1 (clamp_mem c.b).2⟩

theorem foldl_snoc {α : Type} (l : List α) :
    ∀ init : List α, l.foldl (fun acc c => acc ++ [c]) init = init ++ l := by
  induction l with
  | nil => intro init; simp
  | cons a l ih => intro init; simp [ih]

theorem foldl_count {α : Type} (l : List α) :
    ∀ n : Nat, l.foldl (fun n _ => n + 1) n = n + l.length := by
  induction l with
  | nil => intro n; simp
  | cons a l ih => intro n; simp [ih]; omega

end SceneLemmas

section RealSceneLemmas

theorem sqrt_90000 : Real.sqrt 90000 = 300 := by
  rw [show (90000 : ℝ) = 300 ^ 2 by norm_num, Real.sqrt_sq (by norm_num)]

theorem sqrt_62500 : Real.sqrt 62500 = 250 := by
  rw [show (62500 : ℝ) = 250 ^ 2 by norm_num, Real.sqrt_sq (by norm_num)]

/-- Over the reals, a hit on the ray of the pixel `(x, y)` means that
`90000 − 4·((x − 320)² + (y − 240)²)` is not negative, and sets
`t = 100 − √(90000 − 4·((x − 320)² + (y − 240)²))`. -/
theorem real_scene_hit (x y : Nat) (t : ℝ)
    (hhit : (sphere.intersect3 Real.sqrt ⟨⟨(x : ℝ), (y : ℝ), 0⟩, ⟨0, 0, 1⟩⟩ t).1 = true) :
    0 ≤ (90000 : ℝ) - 4 * (((x : ℝ) - 320) ^ 2 + ((y : ℝ) - 240) ^ 2) ∧
    (sphere.intersect3 Real.sqrt ⟨⟨(x : ℝ), (y : ℝ), 0⟩, ⟨0, 0, 1⟩⟩ t).2 =
      100 - Real.sqrt (90000 - 4 * (((x : ℝ) - 320) ^ 2 + ((y : ℝ) - 240) ^ 2)) := by
  have h := scene_intersect3 Real.sqrt x y t
  simp only at h
  rw [h] at hhit ⊢
  by_cases hneg : (90000 : ℝ) - 4 * (((x : ℝ) - 320) ^ 2 + ((y : ℝ) - 240) ^ 2) < 0
  · rw [if_pos hneg] at hhit
    exact absurd hhit (by simp)
  · rw [if_neg hneg]
    refine ⟨not_lt.mp hneg, ?_⟩
    apply min_eq_left
    linarith [Real.sqrt_nonneg ((90000 : ℝ) - 4 * (((x : ℝ) - 320) ^ 2 + ((y : ℝ) - 240) ^ 2))]

/-- The ray of the pixel `(320, 240)`: a hit with `t = −200`. -/
theorem real_centre_pixel (t : ℝ) :
    sphere.intersect3 Real.sqrt ⟨⟨((320 : Nat) : ℝ), ((240 : Nat) : ℝ), 0⟩, ⟨0, 0, 1⟩⟩ t
      = (true, -200) := by
  have h := scene_intersect3 Real.sqrt 320 240 t
  simp only at h
  rw [h, if_neg (by norm_num)]
  norm_num [sqrt_90000]

theorem real_normalize_magnitude2 (v : Vec ℝ) (hv : v ≠ ⟨0, 0, 0⟩) :
    (v.normalize Real.sqrt).magnitude2 = 1 := by
  have hpos : 0 < v.magnitude2 := magnitude2_pos v hv
  rw [show v.normalize Real.sqrt = v.div (Real.sqrt v.magnitude2) from rfl,
    magnitude2_div, Real.sq_sqrt hpos.le, div_self hpos.ne']

/-- Cauchy-Schwarz for two vectors of squared length `1`. -/
theorem dot_unit_bounds (a b : Vec ℝ) (ha : a.magnitude2 = 1) (hb : b.magnitude2 = 1) :
    -1 ≤ dot a b ∧ dot a b ≤ 1 := by
  simp only [Vec.magnitude2] at ha hb
  simp only [dot, Vec.dot]
  constructor
  · nlinarith [sq_nonneg (a.x + b.x), sq_nonneg (a.y + b.y), sq_nonneg (a.z + b.z)]
  · nlinarith [sq_nonneg (a.x - b.x), sq_nonneg (a.y - b.y), sq_nonneg (a.z - b.z)]

theorem real_magnitude_div (v : Vec ℝ) (r : ℝ) (hr : 0 < r) :
    (v.div r).magnitude Real.sqrt = v.magnitude Real.sqrt / r := by
  unfold Vec.magnitude
  rw [magnitude2_div, Real.sqrt_div (magnitude2_nonneg v), Real.sqrt_sq hr.le]

end RealSceneLemmas

section DoubleValues

/-- The rounding at `1/3`: the `double` `0x3FD5555555555555`. -/
theorem round_third : Dbl.round (1 / 3) = 6004799503160661 / 2 ^ 54 := by
  decide!

/-- The rounding at `1/10`: the `double` `0x3FB999999999999A`. -/
theorem round_tenth : Dbl.round (1 / 10) = 3602879701896397 / 2 ^ 55 := by
  decide!

/-- Ties go to the even significand: `2^53 + 1` rounds down to `2^53` and
`2^53 + 3` rounds up to `2^53 + 4`. -/
theorem round_ties_to_even :
    Dbl.round (2 ^ 53 + 1) = 2 ^ 53 ∧ Dbl.round (2 ^ 53 + 3) = 2 ^ 53 + 4 := by
  decide!

/-- The square root at `2`, the `double` `0x3FF6A09E667F3BCD`, and at the
square `49`. -/
theorem sqrt_two_and_49 :
    Dbl.sqrt 2 = 6369051672525773 / 2 ^ 52 ∧ Dbl.sqrt 49 = 7 := by
  decide!

end DoubleValues

/-! ## Theorems -/

section Claims

variable {K : Type} [LinearOrderedField K]

/-- C1: with `oc = o − c`, `b = 2·dot(oc, d)`, `c' = dot(oc, oc) − r²` and
`disc = b² − 4·c'`, `Sphere::intersect3` returns `false` and leaves `t` as it
was when `disc < 0`, and returns `true` with
`t = min(−b − √disc, −b + √disc)` when `disc ≥ 0`. -/
theorem intersect3_spec (sqrt : K → K) (s : Sphere K) (ray : Ray K) (t : K) :
    let oc := ray.o.sub s.c
    let b := 2 * dot oc ray.d
    let c' := dot oc oc - s.r ^ 2
    let disc := b ^ 2 - 4 * c'
    (disc < 0 → s.intersect3 sqrt ray t = (false, t)) ∧
    (0 ≤ disc →
      s.intersect3 sqrt ray t = (true, min (-b - sqrt disc) (-b + sqrt disc))) := by
  intro oc b c' disc
  have h := intersect3_eq sqrt s ray t
  simp only at h
  constructor
  · intro hneg
    rw [h, if_pos hneg]
  · intro hpos
    rw [h, if_neg (not_lt.mpr hpos)]

/-- C4: `Color::operator+` returns, channel by channel, the average of the
two operands (not their sum). -/
theorem color_add_is_average (a b : Color K) :
    (a.add b).r = (a.r + b.r) / 2 ∧
    (a.add b).g = (a.g + b.g) / 2 ∧
    (a.add b).b = (a.b + b.b) / 2 :=
  ⟨rfl, rfl, rfl⟩

/-- C5: after `Color::cap` each of the three channels lies in `[0, 255]`,
whatever the channels were before. -/
theorem cap_channels_in_range (c : Color K) :
    (0 ≤ c.cap.r ∧ c.cap.r ≤ 255) ∧
    (0 ≤ c.cap.g ∧ c.cap.g ≤ 255) ∧
    (0 ≤ c.cap.b ∧ c.cap.b ≤ 255) :=
  ⟨clamp_mem c.r, clamp_mem c.g, clamp_mem c.b⟩

/-- C6: `Color::cap` is idempotent: capping twice gives the colour that
capping once gives. -/
theorem cap_idempotent (c : Color K) : c.cap.cap = c.cap := by
  have hr := clamp_mem c.r
  have hg := clamp_mem c.g
  have hb := clamp_mem c.b
  simp only [Color.cap, Color.mk.injEq]
  exact ⟨clamp_of_mem _ hr.1 hr.2, clamp_of_mem _ hg.1 hg.2, clamp_of_mem _ hb.1 hb.2⟩

/-- C7: `Color::cap` is a saturating clamp applied to each channel on its
own: a channel below `0` becomes `0`, one above `255` becomes `255`, one in
`[0, 255]` is unchanged; so `cap` is the identity on a colour whose channels
are all in range. -/
theorem cap_is_saturating_clamp (c : Color K) :
    ((c.r < 0 → c.cap.r = 0) ∧ (255 < c.r → c.cap.r = 255) ∧
      (0 ≤ c.r → c.r ≤ 255 → c.cap.r = c.r)) ∧
    ((c.g < 0 → c.cap.g = 0) ∧ (255 < c.g → c.cap.g = 255) ∧
      (0 ≤ c.g → c.g ≤ 255 → c.cap.g = c.g)) ∧
    ((c.b < 0 → c.cap.b = 0) ∧ (255 < c.b → c.cap.b = 255) ∧
      (0 ≤ c.b → c.b ≤ 255 → c.cap.b = c.b)) ∧
    ((0 ≤ c.r ∧ c.r ≤ 255) → (0 ≤ c.g ∧ c.g ≤ 255) → (0 ≤ c.b ∧ c.b ≤ 255) →
      c.cap = c) := by
  refine ⟨clamp_cases c.r, clamp_cases c.g, clamp_cases c.b, ?_⟩
  intro hr hg hb
  cases c
  simp only [Color.cap, Color.mk.injEq]
  exact ⟨clamp_of_mem _ hr.1 hr.2, clamp_of_mem _ hg.1 hg.2, clamp_of_mem _ hb.1 hb.2⟩

/-- C9: the dot product is symmetric, for the member `Vec::dot` and for the
free function `dot`. -/
theorem dot_symmetric (a b : Vec K) : a.dot b = b.dot a ∧ dot a b = dot b a := by
  simp only [dot, Vec.dot]
  constructor <;> ring

/-- C8: for every vector `v` other than the zero vector, over the real
numbers, `v.normalize().magnitude()` is exactly `1`. -/
theorem normalize_magnitude_eq_one (v : Vec ℝ) (hv : v ≠ ⟨0, 0, 0⟩) :
    (v.normalize Real.sqrt).magnitude Real.sqrt = 1 := by
  have hpos : 0 < v.magnitude2 := magnitude2_pos v hv
  have hmg : 0 < Real.sqrt v.magnitude2 := Real.sqrt_pos.mpr hpos
  have hsq : Real.sqrt v.magnitude2 ^ 2 = v.magnitude2 := Real.sq_sqrt hpos.le
  apply magnitude_of_magnitude2_eq _ 1 (by norm_num)
  rw [show v.normalize Real.sqrt = v.div (Real.sqrt v.magnitude2) from rfl,
    magnitude2_div, hsq, div_self hpos.ne']
  norm_num

/-- Witness of C8: the vector `(3, 4, 0)` is not the zero vector and its
normalisation has magnitude `1`. -/
theorem normalize_magnitude_eq_one_witness :
    (⟨3, 4, 0⟩ : Vec ℝ) ≠ ⟨0, 0, 0⟩ ∧
    ((⟨3, 4, 0⟩ : Vec ℝ).normalize Real.sqrt).magnitude Real.sqrt = 1 :=
  ⟨by simp, normalize_magnitude_eq_one ⟨3, 4, 0⟩ (by simp)⟩

/-- C2, amended: for every sphere with radius `r ≥ 0` and every ray with a
unit direction `d`, with components taken as real numbers and exact
arithmetic, when `intersect3` reports a hit the point `o + (t/2)·d` lies on
the sphere (`|o + (t/2)·d − c| = r`) and `t/2` is the smaller of the
parameters `u` with `|o + u·d − c| = r`; when `t ≥ 0`, `t` is exactly twice
the distance from the origin of the ray to the nearer intersection: the point
`o + (t/2)·d` is at distance `t/2` from `o`, and no point of the ray's line on
the sphere is nearer to `o`. -/
theorem intersect3_t_is_twice_nearer_root (s : Sphere ℝ) (ray : Ray ℝ) (t : ℝ)
    (hr : 0 ≤ s.r) (hd : ray.d.magnitude Real.sqrt = 1)
    (hhit : (s.intersect3 Real.sqrt ray t).1 = true) :
    ((ray.o.add (ray.d.mul ((s.intersect3 Real.sqrt ray t).2 / 2))).sub s.c).magnitude
        Real.sqrt = s.r ∧
    (∀ u : ℝ, ((ray.o.add (ray.d.mul u)).sub s.c).magnitude Real.sqrt = s.r →
      (s.intersect3 Real.sqrt ray t).2 / 2 ≤ u) ∧
    (0 ≤ (s.intersect3 Real.sqrt ray t).2 →
      ((ray.o.add (ray.d.mul ((s.intersect3 Real.sqrt ray t).2 / 2))).sub ray.o).magnitude
          Real.sqrt = (s.intersect3 Real.sqrt ray t).2 / 2 ∧
      ∀ u : ℝ, ((ray.o.add (ray.d.mul u)).sub s.c).magnitude Real.sqrt = s.r →
        (s.intersect3 Real.sqrt ray t).2 / 2
          ≤ ((ray.o.add (ray.d.mul u)).sub ray.o).magnitude Real.sqrt) := by
  obtain ⟨hdisc, ht⟩ := real_intersect3_hit s ray t hhit
  have hd2 : ray.d.magnitude2 = 1 := by
    rw [magnitude2_of_magnitude_eq ray.d 1 hd]; norm_num
  have hs0 := Real.sqrt_nonneg ((2 * dot (ray.o.sub s.c) ray.d) ^ 2
    - 4 * (dot (ray.o.sub s.c) (ray.o.sub s.c) - s.r ^ 2))
  have hs2 := Real.sq_sqrt hdisc
  have hleast : ∀ u : ℝ, ((ray.o.add (ray.d.mul u)).sub s.c).magnitude Real.sqrt = s.r →
      (s.intersect3 Real.sqrt ray t).2 / 2 ≤ u := by
    intro u hu
    have hu2 := magnitude2_of_magnitude_eq _ _ hu
    rw [point_magnitude2, hd2] at hu2
    rw [ht]
    by_contra hlt
    push_neg at hlt
    nlinarith [hs0, hs2, hu2, hlt]
  refine ⟨?_, hleast, ?_⟩
  · rw [ht]
    apply magnitude_of_magnitude2_eq _ _ hr
    rw [point_magnitude2, hd2]
    linear_combination (1 / 4) * hs2
  · intro hpos
    constructor
    · rw [real_point_distance _ _ _ hd2, abs_of_nonneg (by linarith)]
    · intro u hu
      rw [real_point_distance _ _ _ hd2]
      exact le_trans (hleast u hu) (le_abs_self u)

/-- Witness of C2 (amended): the sphere of centre `(0, 0, 10)` and radius `1`
and the ray from the origin along `(0, 0, 1)`, a hit with `t = 18 ≥ 0`: the
point at `t/2` is on the sphere and at distance `t/2` from the origin. -/
theorem intersect3_t_is_twice_nearer_root_witness :
    (0 : ℝ) ≤ (⟨⟨0, 0, 10⟩, 1⟩ : Sphere ℝ).r ∧
    (⟨0, 0, 1⟩ : Vec ℝ).magnitude Real.sqrt = 1 ∧
    ((⟨⟨0, 0, 10⟩, 1⟩ : Sphere ℝ).intersect3 Real.sqrt ⟨⟨0, 0, 0⟩, ⟨0, 0, 1⟩⟩ 0).1 = true ∧
    (0 : ℝ) ≤
      ((⟨⟨0, 0, 10⟩, 1⟩ : Sphere ℝ).intersect3 Real.sqrt ⟨⟨0, 0, 0⟩, ⟨0, 0, 1⟩⟩ 0).2 ∧
    (((⟨0, 0, 0⟩ : Vec ℝ).add ((⟨0, 0, 1⟩ : Vec ℝ).mul
        (((⟨⟨0, 0, 10⟩, 1⟩ : Sphere ℝ).intersect3 Real.sqrt ⟨⟨0, 0, 0⟩, ⟨0, 0, 1⟩⟩ 0).2 / 2))).sub
          ⟨0, 0, 10⟩).magnitude Real.sqrt = 1 ∧
    (((⟨0, 0, 0⟩ : Vec ℝ).add ((⟨0, 0, 1⟩ : Vec ℝ).mul
        (((⟨⟨0, 0, 10⟩, 1⟩ : Sphere ℝ).intersect3 Real.sqrt ⟨⟨0, 0, 0⟩, ⟨0, 0, 1⟩⟩ 0).2 / 2))).sub
          ⟨0, 0, 0⟩).magnitude Real.sqrt =
      ((⟨⟨0, 0, 10⟩, 1⟩ : Sphere ℝ).intersect3 Real.sqrt ⟨⟨0, 0, 0⟩, ⟨0, 0, 1⟩⟩ 0).2 / 2 :=
  have hpos : (0 : ℝ) ≤
      ((⟨⟨0, 0, 10⟩, 1⟩ : Sphere ℝ).intersect3 Real.sqrt ⟨⟨0, 0, 0⟩, ⟨0, 0, 1⟩⟩ 0).2 := by
    rw [intersect3_front]; norm_num
  have h := intersect3_t_is_twice_nearer_root ⟨⟨0, 0, 10⟩, 1⟩ ⟨⟨0, 0, 0⟩, ⟨0, 0, 1⟩⟩ 0
    (by norm_num) unit_z_magnitude (by rw [intersect3_front])
  ⟨by norm_num, unit_z_magnitude, by rw [intersect3_front], hpos, h.1, (h.2.2 hpos).1⟩

/-- Counterexample to C2 as stated, at three inputs.

In exact arithmetic, for the sphere of centre `(0, 0, −10)` and radius `1`
and the ray from `(0, 0, 0)` along the unit vector `(0, 0, 1)`: `intersect3`
reports a hit with `t = −22`; the point at the parameter `−9` is on the sphere
at distance `9` from the origin, the point at `t/2 = −11` is at distance `11`,
so that `t/2` is not the nearer intersection and `t` is not twice the distance
`9` to it.

On the `double`s of the program, for the sphere of centre `(0, 0, 10)` and
radius `3` and the ray from `(1, 0, 0)` along `(0, 0, 1)`: `intersect3`
reports a hit with `t = 14.34314575050762`, and `|o + (t/2)·d − c|` is
`2.9999999999999996`, not `3`.

In exact arithmetic, for the sphere of centre `(0, 0, 0)` and radius `−1` and
the ray from `(0, 0, 0)` along `(0, 0, 1)`: `intersect3` reports a hit with
`t = −2`, and `|o + (t/2)·d − c|` is `1`, not the radius `−1`. -/
theorem intersect3_twice_distance_counterexample :
    ((⟨0, 0, 1⟩ : Vec ℝ).magnitude Real.sqrt = 1 ∧
      (0 : ℝ) < (⟨⟨0, 0, -10⟩, 1⟩ : Sphere ℝ).r ∧
      (⟨⟨0, 0, -10⟩, 1⟩ : Sphere ℝ).intersect3 Real.sqrt ⟨⟨0, 0, 0⟩, ⟨0, 0, 1⟩⟩ 0
        = (true, -22) ∧
      (((⟨0, 0, 0⟩ : Vec ℝ).add ((⟨0, 0, 1⟩ : Vec ℝ).mul (-9))).sub
        ⟨0, 0, -10⟩).magnitude Real.sqrt = 1 ∧
      (((⟨0, 0, 0⟩ : Vec ℝ).add ((⟨0, 0, 1⟩ : Vec ℝ).mul (-9))).sub
        ⟨0, 0, 0⟩).magnitude Real.sqrt = 9 ∧
      (((⟨0, 0, 0⟩ : Vec ℝ).add ((⟨0, 0, 1⟩ : Vec ℝ).mul
        (((⟨⟨0, 0, -10⟩, 1⟩ : Sphere ℝ).intersect3 Real.sqrt
          ⟨⟨0, 0, 0⟩, ⟨0, 0, 1⟩⟩ 0).2 / 2))).sub
        ⟨0, 0, 0⟩).magnitude Real.sqrt = 11 ∧
      ((⟨⟨0, 0, -10⟩, 1⟩ : Sphere ℝ).intersect3 Real.sqrt ⟨⟨0, 0, 0⟩, ⟨0, 0, 1⟩⟩ 0).2
        ≠ 2 * 9) ∧
    (Dbl.Vec.magnitude ⟨0, 0, 1⟩ = 1 ∧
      (0 : ℚ) < (⟨⟨0, 0, 10⟩, 3⟩ : Sphere ℚ).r ∧
      Dbl.Sphere.intersect3 ⟨⟨0, 0, 10⟩, 3⟩ ⟨⟨1, 0, 0⟩, ⟨0, 0, 1⟩⟩ 0
        = (true, 4037236616081677 / 281474976710656) ∧
      Dbl.Vec.magnitude (Dbl.Vec.sub (Dbl.Vec.add ⟨1, 0, 0⟩ (Dbl.Vec.mul ⟨0, 0, 1⟩
        (Dbl.div (Dbl.Sphere.intersect3 ⟨⟨0, 0, 10⟩, 3⟩ ⟨⟨1, 0, 0⟩, ⟨0, 0, 1⟩⟩ 0).2 2)))
          ⟨0, 0, 10⟩) = 6755399441055743 / 2251799813685248 ∧
      Dbl.Vec.magnitude (Dbl.Vec.sub (Dbl.Vec.add ⟨1, 0, 0⟩ (Dbl.Vec.mul ⟨0, 0, 1⟩
        (Dbl.div (Dbl.Sphere.intersect3 ⟨⟨0, 0, 10⟩, 3⟩ ⟨⟨1, 0, 0⟩, ⟨0, 0, 1⟩⟩ 0).2 2)))
          ⟨0, 0, 10⟩) ≠ (⟨⟨0, 0, 10⟩, 3⟩ : Sphere ℚ).r) ∧
    ((⟨0, 0, 1⟩ : Vec ℝ).magnitude Real.sqrt = 1 ∧
      (⟨⟨0, 0, 0⟩, -1⟩ : Sphere ℝ).intersect3 Real.sqrt ⟨⟨0, 0, 0⟩, ⟨0, 0, 1⟩⟩ 0
        = (true, -2) ∧
      (((⟨0, 0, 0⟩ : Vec ℝ).add ((⟨0, 0, 1⟩ : Vec ℝ).mul
          (((⟨⟨0, 0, 0⟩, -1⟩ : Sphere ℝ).intersect3 Real.sqrt
            ⟨⟨0, 0, 0⟩, ⟨0, 0, 1⟩⟩ 0).2 / 2))).sub
            ⟨0, 0, 0⟩).magnitude Real.sqrt ≠ (⟨⟨0, 0, 0⟩, -1⟩ : Sphere ℝ).r) := by
  refine ⟨⟨unit_z_magnitude, by norm_num, intersect3_behind 0, ?_, ?_, ?_, ?_⟩, by decide!,
    ⟨unit_z_magnitude, intersect3_negative_radius 0, ?_⟩⟩
  · norm_num [Vec.magnitude, Vec.magnitude2, Vec.add, Vec.sub, Vec.mul]
  · rw [real_point_distance _ _ _ (by norm_num [Vec.magnitude2])]
    norm_num
  · rw [intersect3_behind, real_point_distance _ _ _ (by norm_num [Vec.magnitude2])]
    norm_num [abs_of_nonneg]
  · rw [intersect3_behind]
    norm_num
  · rw [intersect3_negative_radius]
    norm_num [Vec.magnitude, Vec.magnitude2, Vec.add, Vec.sub, Vec.mul]

/-- C3: `intersect3` rejects no negative `t`.  For every sphere with radius
`r > 0` and every ray with a unit direction `d`, the origin outside the sphere
(`|o − c| > r`), the sphere behind the origin (`dot(o − c, d) > 0`) and a
discriminant `≥ 0`, `intersect3` returns `true` and sets a `t < 0`; and for
the centre `(0, 0, −10)`, radius `1`, origin `(0, 0, 0)` and direction
`(0, 0, 1)` it returns `true` with `t = −22`. -/
theorem intersect3_no_negative_t_rejection :
    (∀ (s : Sphere ℝ) (ray : Ray ℝ) (t : ℝ),
      0 < s.r →
      ray.d.magnitude Real.sqrt = 1 →
      0 < dot (ray.o.sub s.c) ray.d →
      s.r < (ray.o.sub s.c).magnitude Real.sqrt →
      0 ≤ (2 * dot (ray.o.sub s.c) ray.d) ^ 2
        - 4 * (dot (ray.o.sub s.c) (ray.o.sub s.c) - s.r ^ 2) →
      (s.intersect3 Real.sqrt ray t).1 = true ∧ (s.intersect3 Real.sqrt ray t).2 < 0) ∧
    (∀ t : ℝ,
      (⟨⟨0, 0, -10⟩, 1⟩ : Sphere ℝ).intersect3 Real.sqrt ⟨⟨0, 0, 0⟩, ⟨0, 0, 1⟩⟩ t
        = (true, -22)) := by
  refine ⟨?_, intersect3_behind⟩
  intro s ray t _ _ hb _ hdisc
  rw [real_intersect3_of_nonneg s ray t hdisc]
  refine ⟨rfl, ?_⟩
  have hs := Real.sqrt_nonneg ((2 * dot (ray.o.sub s.c) ray.d) ^ 2
    - 4 * (dot (ray.o.sub s.c) (ray.o.sub s.c) - s.r ^ 2))
  show -(2 * dot (ray.o.sub s.c) ray.d) - _ < 0
  linarith

/-- Witness of C3: the hypotheses hold for the sphere of centre `(0, 0, −10)`
and radius `1` and the ray from `(0, 0, 0)` along `(0, 0, 1)`. -/
theorem intersect3_no_negative_t_rejection_witness :
    ((⟨⟨0, 0, -10⟩, 1⟩ : Sphere ℝ).intersect3 Real.sqrt ⟨⟨0, 0, 0⟩, ⟨0, 0, 1⟩⟩ 0).1 = true ∧
    ((⟨⟨0, 0, -10⟩, 1⟩ : Sphere ℝ).intersect3 Real.sqrt ⟨⟨0, 0, 0⟩, ⟨0, 0, 1⟩⟩ 0).2 < 0 :=
  intersect3_no_negative_t_rejection.1 ⟨⟨0, 0, -10⟩, 1⟩ ⟨⟨0, 0, 0⟩, ⟨0, 0, 1⟩⟩ 0
    (by norm_num) unit_z_magnitude
    (by norm_num [dot, Vec.dot, Vec.sub])
    (by
      have h : ((⟨0, 0, 0⟩ : Vec ℝ).sub ⟨0, 0, -10⟩).magnitude Real.sqrt = 10 := by
        norm_num [Vec.magnitude, Vec.magnitude2, Vec.sub, sqrt_hundred]
      rw [h]; norm_num)
    (by norm_num [dot, Vec.dot, Vec.sub])

/-- C10: the colour the driver emits for the pixel `(x, y)` is BLACK
`(0, 0, 0)` when `intersect3` reports no hit for the ray with origin
`(x, y, 0)` and direction `(0, 0, 1)`; otherwise it is the capped colour
`RED.add(WHITE.scale(diffuse))`, with channels `clamp((255 + 255·diffuse)/2)`,
`clamp(255·diffuse/2)`, `clamp(255·diffuse/2)`, where `pi = origin +
direction·t`, `L = (0, 0, 0) − pi`, `N = sphere.getNormal(pi)` and
`diffuse = dot(normalize(L), normalize(N))`. -/
theorem pixelAt_spec (sqrt : K → K) (x y : Nat) :
    let ray : Ray K := ⟨⟨(x : K), (y : K), 0⟩, ⟨0, 0, 1⟩⟩
    let hit := sphere.intersect3 sqrt ray 0
    let pi := ray.o.add (ray.d.mul hit.2)
    let L := (⟨0, 0, 0⟩ : Vec K).sub pi
    let N := sphere.getNormal pi
    let diffuse := dot (L.normalize sqrt) (N.normalize sqrt)
    (hit.1 = false → pixelAt sqrt x y = ⟨0, 0, 0⟩) ∧
    (hit.1 = true →
      pixelAt sqrt x y = (Color.RED.add (Color.WHITE.mul diffuse)).cap ∧
      pixelAt sqrt x y =
        ⟨max 0 (min 255 ((255 + 255 * diffuse) / 2)),
          max 0 (min 255 (255 * diffuse / 2)),
          max 0 (min 255 (255 * diffuse / 2))⟩) := by
  intro ray hit pi L N diffuse
  have hmul : ∀ c : Color K, c.mul 1.0 = c := by
    intro c
    cases c
    simp only [Color.mul, Color.mk.injEq]
    norm_num
  have hpix : pixelAt sqrt x y =
      if hit.1 = true then (Color.RED.add (Color.WHITE.mul diffuse)).cap
      else ⟨0, 0, 0⟩ := by
    unfold pixelAt
    simp only [hmul]
    rcases hres : sphere.intersect3 sqrt ⟨⟨(x : K), (y : K), 0⟩, ⟨0, 0, 1⟩⟩ 0 with ⟨b, t⟩
    have hb : hit.1 = b := by simp only [hit, ray, hres]
    have ht : hit.2 = t := by simp only [hit, ray, hres]
    cases b
    · simp only [hb]
      rfl
    · simp only [hb, diffuse, L, N, pi, ht, ray]
      rfl
  constructor
  · intro h
    rw [hpix, if_neg (by simp [h])]
  · intro h
    rw [hpix, if_pos h]
    refine ⟨rfl, ?_⟩
    simp only [Color.cap, Color.add, Color.mul, Color.RED, Color.WHITE, clamp_eq_max_min,
      Color.mk.injEq]
    refine ⟨trivial, ?_, ?_⟩ <;> rw [zero_add]

/-- C11: with `WIDTH = 640`, `HEIGHT = 480`, the sphere of centre
`(320, 240, 50)` and radius `150` and the light at `(0, 0, 0)` of `main`, the
ray of the pixel `(320, 240)` is a hit, and the ray of the pixel `(0, 0)` is
not, so that this pixel is BLACK `(0, 0, 0)` and is written as `0 0 0`. -/
theorem centre_pixel_hit_corner_pixel_black [FloorRing K] (sqrt : K → K) :
    WIDTH = 640 ∧ HEIGHT = 480 ∧
    (sphere : Sphere K) = ⟨⟨320, 240, 50⟩, 150⟩ ∧ (light : Sphere K).c = ⟨0, 0, 0⟩ ∧
    (sphere.intersect3 sqrt ⟨⟨((320 : Nat) : K), ((240 : Nat) : K), 0⟩, ⟨0, 0, 1⟩⟩ 0).1
      = true ∧
    (sphere.intersect3 sqrt ⟨⟨((0 : Nat) : K), ((0 : Nat) : K), 0⟩, ⟨0, 0, 1⟩⟩ 0).1
      = false ∧
    pixelAt sqrt 0 0 = ⟨0, 0, 0⟩ ∧
    writeColor "" (pixelAt sqrt 0 0) = "0\n0\n0\n" := by
  have hmiss : (sphere.intersect3 sqrt ⟨⟨((0 : Nat) : K), ((0 : Nat) : K), 0⟩, ⟨0, 0, 1⟩⟩ 0).1
      = false := by
    have h := scene_intersect3 sqrt 0 0 (0 : K)
    simp only at h
    rw [h, if_pos (by norm_num)]
  have hblack := pixelAt_of_miss sqrt 0 0 hmiss
  refine ⟨rfl, rfl, ?_, rfl, ?_, hmiss, hblack, ?_⟩
  · simp only [sphere, Sphere.mk.injEq, Vec.mk.injEq]
    norm_num [WIDTH, HEIGHT]
  · have h := scene_intersect3 sqrt 320 240 (0 : K)
    simp only at h
    rw [h, if_neg (by norm_num)]
  · rw [hblack, writeColor_eq]
    simp only [toInt, le_refl, if_true, Int.floor_zero]
    decide

/-- C15: for the scene of `main` the hit pixels are exactly the disk of
radius `150` about `(320, 240)`: for all naturals `x`, `y` (those of the
raster among them) `intersect3` returns `true` on the ray of the pixel
`(x, y)` if and only if `(x − 320)² + (y − 240)² ≤ 150²`, and every other
pixel is BLACK. -/
theorem hit_iff_in_disk (sqrt : K → K) (x y : Nat) :
    ((sphere.intersect3 sqrt ⟨⟨(x : K), (y : K), 0⟩, ⟨0, 0, 1⟩⟩ 0).1 = true ↔
      ((x : Int) - 320) ^ 2 + ((y : Int) - 240) ^ 2 ≤ 150 ^ 2) ∧
    (¬ ((x : Int) - 320) ^ 2 + ((y : Int) - 240) ^ 2 ≤ 150 ^ 2 →
      pixelAt sqrt x y = ⟨0, 0, 0⟩) := by
  have hcast : (((x : K) - 320) ^ 2 + ((y : K) - 240) ^ 2 ≤ 150 ^ 2) ↔
      ((x : Int) - 320) ^ 2 + ((y : Int) - 240) ^ 2 ≤ 150 ^ 2 := by
    have h : ((x : K) - 320) ^ 2 + ((y : K) - 240) ^ 2
        = ((((x : Int) - 320) ^ 2 + ((y : Int) - 240) ^ 2 : Int) : K) := by
      push_cast
      ring
    rw [h, show ((150 : K) ^ 2) = (((150 : Int) ^ 2 : Int) : K) by push_cast; ring]
    exact Int.cast_le
  have hscene := scene_intersect3 sqrt x y (0 : K)
  simp only at hscene
  have hiff : (sphere.intersect3 sqrt ⟨⟨(x : K), (y : K), 0⟩, ⟨0, 0, 1⟩⟩ 0).1 = true ↔
      ((x : Int) - 320) ^ 2 + ((y : Int) - 240) ^ 2 ≤ 150 ^ 2 := by
    rw [← hcast, hscene]
    by_cases hneg : (90000 : K) - 4 * (((x : K) - 320) ^ 2 + ((y : K) - 240) ^ 2) < 0
    · rw [if_pos hneg]
      constructor
      · intro h
        exact absurd h (by simp)
      · intro h
        linarith
    · rw [if_neg hneg]
      constructor
      · intro _
        linarith [not_lt.mp hneg]
      · intro _
        rfl
  refine ⟨hiff, ?_⟩
  intro hout
  apply pixelAt_of_miss
  rw [← hiff] at hout
  simpa using hout

/-- C12: the driver emits exactly `WIDTH·HEIGHT = 307200` colour triples (the
statement `out << pixel` runs that many times), and every emitted channel
value `int(channel)` is an integer of `[0, 255]`, for every pixel. -/
theorem emitted_triples_count_and_range [FloorRing K] (sqrt : K → K) :
    WIDTH * HEIGHT = 307200 ∧
    renderLoop sqrt (fun (n : Nat) (_ : Color K) => n + 1) 0 = WIDTH * HEIGHT ∧
    (renderLoop sqrt (fun acc c => acc ++ [c]) ([] : List (Color K))).length
      = WIDTH * HEIGHT ∧
    (∀ c ∈ renderLoop sqrt (fun acc c => acc ++ [c]) ([] : List (Color K)),
      (0 ≤ toInt c.r ∧ toInt c.r ≤ 255) ∧
      (0 ≤ toInt c.g ∧ toInt c.g ≤ 255) ∧
      (0 ≤ toInt c.b ∧ toInt c.b ≤ 255)) ∧
    (∀ x y : Nat,
      (0 ≤ toInt (pixelAt sqrt x y).r ∧ toInt (pixelAt sqrt x y).r ≤ 255) ∧
      (0 ≤ toInt (pixelAt sqrt x y).g ∧ toInt (pixelAt sqrt x y).g ≤ 255) ∧
      (0 ≤ toInt (pixelAt sqrt x y).b ∧ toInt (pixelAt sqrt x y).b ≤ 255)) := by
  refine ⟨by decide, ?_, ?_, ?_, pixelAt_channels sqrt⟩
  · rw [renderLoop_eq, foldl_count, List.length_map, List.length_range, Nat.zero_add,
      Nat.mul_comm]
  · rw [renderLoop_eq, foldl_snoc, List.nil_append, List.length_map, List.length_range,
      Nat.mul_comm]
  · intro c hc
    rw [renderLoop_eq, foldl_snoc, List.nil_append, List.mem_map] at hc
    obtain ⟨k, _, hk⟩ := hc
    rw [← hk]
    exact pixelAt_channels sqrt _ _

/-- C13: the text written by `main` is the four header lines `P3`, `640`,
`480`, `255`, each ended by a newline, followed by the pixel triples in
row-major order: the `k`-th triple, `k` from `0` to `640·480 − 1`, is the
colour of the pixel `(k mod 640, k div 640)`, written as its R, G, B integers
in this order, each followed by a newline. -/
theorem main_text [FloorRing K] (sqrt : K → K) :
    main sqrt = "P3\n640\n480\n255\n" ++
      String.join ((List.range (640 * 480)).map fun k =>
        toString (toInt (pixelAt sqrt (k % 640) (k / 640)).r) ++ "\n" ++
        toString (toInt (pixelAt sqrt (k % 640) (k / 640)).g) ++ "\n" ++
        toString (toInt (pixelAt sqrt (k % 640) (k / 640)).b) ++ "\n") := by
  have hheader : (((("" ++ "P3\n") ++ toString WIDTH).push '\n' ++ toString HEIGHT).push '\n')
      ++ "255\n" = "P3\n640\n480\n255\n" := by decide
  unfold main
  simp only [hheader]
  rw [renderLoop_eq,
    foldl_append_join (fun c : Color K => toString (toInt c.r) ++ "\n" ++ toString (toInt c.g)
      ++ "\n" ++ toString (toInt c.b) ++ "\n") writeColor writeColor_eq,
    List.map_map]
  rfl

/-- C14 does not hold of the code: at the pixel `(320, 240)` `intersect3`
reports a hit and sets `t = −200`, so the point `pi = ray.o + ray.d·t` that
the driver passes to `getNormal` is `(320, 240, −200)`, at distance `250` from
the centre `(320, 240, 50)` and not at the radius `150`. -/
theorem centre_pixel_point_off_sphere :
    (sphere : Sphere ℝ) = ⟨⟨320, 240, 50⟩, 150⟩ ∧
    sphere.intersect3 Real.sqrt ⟨⟨((320 : Nat) : ℝ), ((240 : Nat) : ℝ), 0⟩, ⟨0, 0, 1⟩⟩ 0
      = (true, -200) ∧
    (((⟨((320 : Nat) : ℝ), ((240 : Nat) : ℝ), 0⟩ : Vec ℝ).add
        ((⟨0, 0, 1⟩ : Vec ℝ).mul
          (sphere.intersect3 Real.sqrt
            ⟨⟨((320 : Nat) : ℝ), ((240 : Nat) : ℝ), 0⟩, ⟨0, 0, 1⟩⟩ 0).2)).sub
      (sphere : Sphere ℝ).c).magnitude Real.sqrt = 250 ∧
    (sphere : Sphere ℝ).r = 150 := by
  refine ⟨?_, real_centre_pixel 0, ?_, rfl⟩
  · simp only [sphere, Sphere.mk.injEq, Vec.mk.injEq]
    norm_num [WIDTH, HEIGHT]
  · rw [real_centre_pixel]
    norm_num [Vec.magnitude, Vec.magnitude2, Vec.add, Vec.sub, Vec.mul, sphere, WIDTH, HEIGHT,
      sqrt_62500]

/-- C16: in the scene of `main`, over the real numbers, for every pixel
`(x, y)` at which `intersect3` reports a hit the light vector
`L = light.c − pi` and the normal `N = sphere.getNormal(pi)` are not the zero
vector, so `L.normalize()` and `N.normalize()` divide by a strictly positive
magnitude. -/
theorem shading_vectors_nonzero (x y : Nat)
    (hhit : (sphere.intersect3 Real.sqrt ⟨⟨(x : ℝ), (y : ℝ), 0⟩, ⟨0, 0, 1⟩⟩ 0).1 = true) :
    let ray : Ray ℝ := ⟨⟨(x : ℝ), (y : ℝ), 0⟩, ⟨0, 0, 1⟩⟩
    let pi := ray.o.add (ray.d.mul (sphere.intersect3 Real.sqrt ray 0).2)
    let L := (light : Sphere ℝ).c.sub pi
    let N := (sphere : Sphere ℝ).getNormal pi
    L ≠ ⟨0, 0, 0⟩ ∧ N ≠ ⟨0, 0, 0⟩ ∧
    0 < L.magnitude Real.sqrt ∧ 0 < N.magnitude Real.sqrt := by
  intro ray pi L N
  obtain ⟨hdisc, ht⟩ := real_scene_hit x y 0 hhit
  have hL : L ≠ ⟨0, 0, 0⟩ := by
    intro h
    simp only [L, pi, ray, light, Vec.sub, Vec.add, Vec.mul, Vec.mk.injEq] at h
    obtain ⟨hx, hy, _⟩ := h
    have hx0 : (x : ℝ) = 0 := by linarith
    have hy0 : (y : ℝ) = 0 := by linarith
    rw [hx0, hy0] at hdisc
    norm_num at hdisc
  have hN : N ≠ ⟨0, 0, 0⟩ := by
    intro h
    have hc : (sphere : Sphere ℝ).c = ⟨320, 240, 50⟩ := by
      simp only [sphere, Vec.mk.injEq]
      norm_num [WIDTH, HEIGHT]
    have hr : (sphere : Sphere ℝ).r = 150 := rfl
    simp only [N, pi, ray, Sphere.getNormal, hc, hr, Vec.sub, Vec.add, Vec.mul, Vec.div,
      Vec.mk.injEq] at h
    obtain ⟨hx, hy, hz⟩ := h
    rw [div_eq_zero_iff] at hx hy hz
    have hx0 : (x : ℝ) = 320 := by
      rcases hx with hx | hx
      · linarith
      · norm_num at hx
    have hy0 : (y : ℝ) = 240 := by
      rcases hy with hy | hy
      · linarith
      · norm_num at hy
    have hz0 : (sphere.intersect3 Real.sqrt ⟨⟨(x : ℝ), (y : ℝ), 0⟩, ⟨0, 0, 1⟩⟩ 0).2 = 50 := by
      rcases hz with hz | hz
      · linarith
      · norm_num at hz
    rw [ht, hx0, hy0] at hz0
    norm_num [sqrt_90000] at hz0
  exact ⟨hL, hN, Real.sqrt_pos.mpr (magnitude2_pos L hL),
    Real.sqrt_pos.mpr (magnitude2_pos N hN)⟩

/-- Witness of C16: the pixel `(320, 240)` is a hit, and there `L` and `N`
are not the zero vector. -/
theorem shading_vectors_nonzero_witness :
    (sphere.intersect3 Real.sqrt
      ⟨⟨((320 : Nat) : ℝ), ((240 : Nat) : ℝ), 0⟩, ⟨0, 0, 1⟩⟩ 0).1 = true ∧
    (light : Sphere ℝ).c.sub
      ((⟨((320 : Nat) : ℝ), ((240 : Nat) : ℝ), 0⟩ : Vec ℝ).add ((⟨0, 0, 1⟩ : Vec ℝ).mul
        (sphere.intersect3 Real.sqrt
          ⟨⟨((320 : Nat) : ℝ), ((240 : Nat) : ℝ), 0⟩, ⟨0, 0, 1⟩⟩ 0).2)) ≠ ⟨0, 0, 0⟩ ∧
    (sphere : Sphere ℝ).getNormal
      ((⟨((320 : Nat) : ℝ), ((240 : Nat) : ℝ), 0⟩ : Vec ℝ).add ((⟨0, 0, 1⟩ : Vec ℝ).mul
        (sphere.intersect3 Real.sqrt
          ⟨⟨((320 : Nat) : ℝ), ((240 : Nat) : ℝ), 0⟩, ⟨0, 0, 1⟩⟩ 0).2)) ≠ ⟨0, 0, 0⟩ :=
  ⟨by rw [real_centre_pixel],
    (shading_vectors_nonzero 320 240 (by rw [real_centre_pixel])).1,
    (shading_vectors_nonzero 320 240 (by rw [real_centre_pixel])).2.1⟩

/-- C17: for all non-zero vectors `L` and `N`, over the real numbers, the
diffuse term `dt = dot(L.normalize(), N.normalize())` lies in `[−1, 1]`; the
colour `red + (white·dt)·1.0` has, before `cap`, the red channel
`(255 + 255·dt)/2`, which is in `[0, 255]`, and green and blue channels both
`255·dt/2 ≤ 127.5`; `cap` leaves the red channel as it is and turns the green
and blue channels into `max(0, ·)`, that is, it only raises negative values
to `0`. -/
theorem diffuse_bounds_and_cap (L N : Vec ℝ) (hL : L ≠ ⟨0, 0, 0⟩) (hN : N ≠ ⟨0, 0, 0⟩) :
    let dt := dot (L.normalize Real.sqrt) (N.normalize Real.sqrt)
    let pixel := (Color.RED : Color ℝ).add (((Color.WHITE : Color ℝ).mul dt).mul 1.0)
    (-1 ≤ dt ∧ dt ≤ 1) ∧
    pixel.r = (255 + 255 * dt) / 2 ∧ (0 ≤ pixel.r ∧ pixel.r ≤ 255) ∧
    pixel.g = 255 * dt / 2 ∧ pixel.b = 255 * dt / 2 ∧
    pixel.g ≤ 127.5 ∧ pixel.b ≤ 127.5 ∧
    pixel.cap.r = pixel.r ∧
    pixel.cap.g = max 0 pixel.g ∧ pixel.cap.b = max 0 pixel.b := by
  intro dt pixel
  have hdt : -1 ≤ dt ∧ dt ≤ 1 :=
    dot_unit_bounds _ _ (real_normalize_magnitude2 L hL) (real_normalize_magnitude2 N hN)
  have hr : pixel.r = (255 + 255 * dt) / 2 := by
    simp only [pixel, Color.add, Color.mul, Color.RED, Color.WHITE]
    norm_num
  have hg : pixel.g = 255 * dt / 2 := by
    simp only [pixel, Color.add, Color.mul, Color.RED, Color.WHITE]
    norm_num
  have hb : pixel.b = 255 * dt / 2 := by
    simp only [pixel, Color.add, Color.mul, Color.RED, Color.WHITE]
    norm_num
  have hr0 : 0 ≤ pixel.r := by rw [hr]; linarith [hdt.1]
  have hr1 : pixel.r ≤ 255 := by rw [hr]; linarith [hdt.2]
  have hg1 : pixel.g ≤ 127.5 := by rw [hg]; norm_num; linarith [hdt.2]
  have hb1 : pixel.b ≤ 127.5 := by rw [hb]; norm_num; linarith [hdt.2]
  refine ⟨hdt, hr, ⟨hr0, hr1⟩, hg, hb, hg1, hb1, clamp_of_mem _ hr0 hr1, ?_, ?_⟩
  · show Color.clamp__ pixel.g = max 0 pixel.g
    rw [clamp_eq_max_min, min_eq_right (by linarith [show (127.5 : ℝ) ≤ 255 by norm_num])]
  · show Color.clamp__ pixel.b = max 0 pixel.b
    rw [clamp_eq_max_min, min_eq_right (by linarith [show (127.5 : ℝ) ≤ 255 by norm_num])]

/-- Witness of C17: `L = (3, 4, 0)` and `N = (0, 0, 1)` are not the zero
vector, and their diffuse term is in `[−1, 1]`. -/
theorem diffuse_bounds_and_cap_witness :
    (⟨3, 4, 0⟩ : Vec ℝ) ≠ ⟨0, 0, 0⟩ ∧ (⟨0, 0, 1⟩ : Vec ℝ) ≠ ⟨0, 0, 0⟩ ∧
    (-1 ≤ dot ((⟨3, 4, 0⟩ : Vec ℝ).normalize Real.sqrt)
        ((⟨0, 0, 1⟩ : Vec ℝ).normalize Real.sqrt) ∧
      dot ((⟨3, 4, 0⟩ : Vec ℝ).normalize Real.sqrt)
        ((⟨0, 0, 1⟩ : Vec ℝ).normalize Real.sqrt) ≤ 1) :=
  ⟨by simp, by simp, (diffuse_bounds_and_cap ⟨3, 4, 0⟩ ⟨0, 0, 1⟩ (by simp) (by simp)).1⟩

/-- C18: for every sphere with radius `r > 0`, over the real numbers,
`getNormal(p) = (p − c)/r` has magnitude exactly `1` for every point `p` on
the surface (`|p − c| = r`), and magnitude `|p − c|/r` for every point `p`,
off the surface too. -/
theorem getNormal_magnitude (s : Sphere ℝ) (hr : 0 < s.r) :
    (∀ p : Vec ℝ, (p.sub s.c).magnitude Real.sqrt = s.r →
      (s.getNormal p).magnitude Real.sqrt = 1) ∧
    (∀ p : Vec ℝ,
      (s.getNormal p).magnitude Real.sqrt = (p.sub s.c).magnitude Real.sqrt / s.r) := by
  have hall : ∀ p : Vec ℝ,
      (s.getNormal p).magnitude Real.sqrt = (p.sub s.c).magnitude Real.sqrt / s.r :=
    fun p => real_magnitude_div (p.sub s.c) s.r hr
  refine ⟨?_, hall⟩
  intro p hp
  rw [hall, hp, div_self hr.ne']

/-- Witness of C18: the sphere of centre `(0, 0, 0)` and radius `2` and the
point `(0, 0, 2)` of its surface. -/
theorem getNormal_magnitude_witness :
    (0 : ℝ) < (⟨⟨0, 0, 0⟩, 2⟩ : Sphere ℝ).r ∧
    ((⟨0, 0, 2⟩ : Vec ℝ).sub ⟨0, 0, 0⟩).magnitude Real.sqrt = 2 ∧
    ((⟨⟨0, 0, 0⟩, 2⟩ : Sphere ℝ).getNormal ⟨0, 0, 2⟩).magnitude Real.sqrt = 1 :=
  have hp : ((⟨0, 0, 2⟩ : Vec ℝ).sub ⟨0, 0, 0⟩).magnitude Real.sqrt = 2 := by
    norm_num [Vec.magnitude, Vec.magnitude2, Vec.sub, sqrt_four]
  ⟨by norm_num, hp, (getNormal_magnitude ⟨⟨0, 0, 0⟩, 2⟩ (by norm_num)).1 ⟨0, 0, 2⟩ hp⟩

/-- Counterexample to C17 as stated, on the `double`s of the program: for
`L = N = (0, 1, 5)` the code computes `dt = 1.0000000000000002 > 1`, the red
channel before `cap` is `255.00000000000003 > 255`, the green channel is
`127.50000000000003 > 127.5`, and `cap` changes the red channel (to `255`). -/
theorem diffuse_exceeds_one_in_doubles :
    (⟨0, 1, 5⟩ : Vec ℚ) ≠ ⟨0, 0, 0⟩ ∧
    Dbl.dot (Dbl.Vec.normalize ⟨0, 1, 5⟩) (Dbl.Vec.normalize ⟨0, 1, 5⟩)
      = 4503599627370497 / 4503599627370496 ∧
    ¬ Dbl.dot (Dbl.Vec.normalize ⟨0, 1, 5⟩) (Dbl.Vec.normalize ⟨0, 1, 5⟩) ≤ 1 ∧
    Dbl.shade (Dbl.dot (Dbl.Vec.normalize ⟨0, 1, 5⟩) (Dbl.Vec.normalize ⟨0, 1, 5⟩))
      = ⟨8972014882652161 / 35184372088832, 4486007441326081 / 35184372088832,
          4486007441326081 / 35184372088832⟩ ∧
    ¬ (Dbl.shade (Dbl.dot (Dbl.Vec.normalize ⟨0, 1, 5⟩) (Dbl.Vec.normalize ⟨0, 1, 5⟩))).r
        ≤ 255 ∧
    ¬ (Dbl.shade (Dbl.dot (Dbl.Vec.normalize ⟨0, 1, 5⟩) (Dbl.Vec.normalize ⟨0, 1, 5⟩))).g
        ≤ 255 / 2 ∧
    (Dbl.shade (Dbl.dot (Dbl.Vec.normalize ⟨0, 1, 5⟩) (Dbl.Vec.normalize ⟨0, 1, 5⟩))).cap.r
      ≠ (Dbl.shade (Dbl.dot (Dbl.Vec.normalize ⟨0, 1, 5⟩) (Dbl.Vec.normalize ⟨0, 1, 5⟩))).r := by
  decide!

/-- Counterexample to C18 as stated, on the `double`s of the program: for the
sphere of centre `(0, 0, 0)` and radius `7` and the point `p = (2, 3, 6)` the
code computes `|p − c| = 7`, equal to the radius, and the magnitude of
`getNormal(p)` is `0.9999999999999999`, not `1`. -/
theorem getNormal_not_unit_in_doubles :
    (0 : ℚ) < (⟨⟨0, 0, 0⟩, 7⟩ : Sphere ℚ).r ∧
    Dbl.Vec.magnitude (Dbl.Vec.sub ⟨2, 3, 6⟩ (⟨⟨0, 0, 0⟩, 7⟩ : Sphere ℚ).c)
      = (⟨⟨0, 0, 0⟩, 7⟩ : Sphere ℚ).r ∧
    Dbl.Vec.magnitude (Dbl.Sphere.getNormal ⟨⟨0, 0, 0⟩, 7⟩ ⟨2, 3, 6⟩)
      = 9007199254740991 / 9007199254740992 ∧
    Dbl.Vec.magnitude (Dbl.Sphere.getNormal ⟨⟨0, 0, 0⟩, 7⟩ ⟨2, 3, 6⟩) ≠ 1 := by
  decide!

end Claims

end RayTracer
